import Mathlib

/-!
Shallow embedding of `dymos/phases/components/boundary_constraint_comp.py`
(`BoundaryConstraintComp`): a boundary-value constraint registration and
pass-through layer.

The component has three lifecycle stages, mirrored here:
  * declaration (`_add_constraint`): normalize a one-sided bound pair and
    append a `(name, kwargs)` entry to the registry `self._constraints`;
  * build (`setup`): for every registry entry create one named input, one
    named output, attach constraint metadata to the output, and declare a
    sparse identity derivative block between output and input;
  * evaluation (`compute`): copy every registered input value to its
    paired output.

External framework primitives (`add_input`, `add_output`, `add_constraint`,
`declare_partials`) are modelled as records of the calls the component makes;
numpy's `prod`, `arange` and `ones` are modelled by their mathematical
semantics (`ones` rejects a negative size, as numpy does).  Numeric scalars
are modelled as rationals; numpy arrays as a shape together with flat data.
-/

namespace BoundaryConstraintComp

/-- Modelled from the spec: `INF_BOUND`, imported from `dymos.utils.constants`
(a module not part of this excerpt), is the large-magnitude positive finite
sentinel standing for "no effective bound on this side". -/
def INF_BOUND : Rat := 10 ^ 21

/-- The `kwargs` dictionary stored per constraint by `_add_constraint`:
keys `shape`, `units`, `res_units`, `desc`, `lower`, `upper`, `equals`,
`scaler`, `adder`, `ref`, `ref0`, `linear`, `res_ref`, `distributed`. -/
structure ConstraintKwargs where
  shape : List Int
  units : Option String
  res_units : Option String
  desc : String
  lower : Option Rat
  upper : Option Rat
  equals : Option Rat
  scaler : Option Rat
  adder : Option Rat
  ref : Option Rat
  ref0 : Option Rat
  linear : Bool
  res_ref : Rat
  distributed : Bool
deriving DecidableEq, Repr

/-- The caller-supplied arguments of `_add_constraint` (defaults shown in the
source signature are supplied by callers here; `ref` defaults to `1.0` and
`ref0` to `0.0` there). -/
structure DeclareArgs where
  name : String
  shape : List Int
  units : Option String
  res_units : Option String
  desc : String
  lower : Option Rat
  upper : Option Rat
  equals : Option Rat
  scaler : Option Rat
  adder : Option Rat
  ref : Option Rat
  ref0 : Option Rat
  linear : Bool
  res_ref : Rat
  distributed : Bool
deriving DecidableEq, Repr

/-- The bound-normalization policy: the two sequential assignments at the end
of `_add_constraint`:
`lower = -INF_BOUND if upper is not None and lower is None else lower` then
`upper = INF_BOUND if lower is not None and upper is None else upper`
(the second line reads the `lower` produced by the first). -/
def normalizeBounds (lower upper : Option Rat) : Option Rat × Option Rat :=
  let lower := if upper.isSome && lower.isNone then some (-INF_BOUND) else lower
  let upper := if lower.isSome && upper.isNone then some INF_BOUND else upper
  (lower, upper)

/-- The `kwargs` dictionary literal built by `_add_constraint` after the
bound-normalization assignments. -/
def declaredKwargs (a : DeclareArgs) : ConstraintKwargs :=
  { shape := a.shape
    units := a.units
    res_units := a.res_units
    desc := a.desc
    lower := (normalizeBounds a.lower a.upper).1
    upper := (normalizeBounds a.lower a.upper).2
    equals := a.equals
    scaler := a.scaler
    adder := a.adder
    ref := a.ref
    ref0 := a.ref0
    linear := a.linear
    res_ref := a.res_ref
    distributed := a.distributed }

/-- `_add_constraint`: `self._constraints.append((name, kwargs))`.  The state
`self._constraints` is passed explicitly; the method performs no check of any
kind before appending. -/
def _add_constraint (constraints : List (String × ConstraintKwargs))
    (a : DeclareArgs) : List (String × ConstraintKwargs) :=
  constraints ++ [(a.name, declaredKwargs a)]

/-- `'{0}_value_in:{1}'.format(loc, name)` -/
def inputName (loc name : String) : String :=
  loc ++ "_value_in:" ++ name

/-- `'{0}_value:{1}'.format(loc, name)` -/
def outputName (loc name : String) : String :=
  loc ++ "_value:" ++ name

/-- One entry of the dict `self._vars`:
`{'input_name': ..., 'output_name': ..., 'shape': kwargs['shape']}`. -/
structure VarInfo where
  input_name : String
  output_name : String
  shape : List Int
deriving DecidableEq, Repr

/-- A recorded `self.add_input(input_name, units=..., shape=..., desc=...)`
call (the kwargs filtered by `('units', 'shape', 'desc')`). -/
structure InputDecl where
  name : String
  units : Option String
  shape : List Int
  desc : String
deriving DecidableEq, Repr

/-- A recorded `self.add_output(output_name, units=..., shape=..., desc=...)`
call (the kwargs filtered by `('units', 'shape', 'desc')`). -/
structure OutputDecl where
  name : String
  units : Option String
  shape : List Int
  desc : String
deriving DecidableEq, Repr

/-- A recorded `self.add_constraint(output_name, **constraint_kwargs)` call,
with `constraint_kwargs = {k: kwargs.get(k, None) for k in ('lower', 'upper',
'equals', 'ref', 'ref0', 'adder', 'scaler', 'indices', 'linear')}`.  The
stored kwargs dict has no `'indices'` key, so `kwargs.get('indices', None)`
is always `None`. -/
structure ConstraintMeta where
  name : String
  lower : Option Rat
  upper : Option Rat
  equals : Option Rat
  ref : Option Rat
  ref0 : Option Rat
  adder : Option Rat
  scaler : Option Rat
  indices : Option (List Int)
  linear : Bool
deriving DecidableEq, Repr

/-- A recorded `self.declare_partials(of=..., wrt=..., val=..., rows=...,
cols=...)` call: a sparse triplet derivative declaration. -/
structure PartialsDecl where
  «of» : String
  wrt : String
  rows : List Int
  cols : List Int
  val : List Rat
deriving DecidableEq, Repr

/-- Python dict assignment `d[k] = v`: overwrite in place if the key exists
(keeping its insertion position), else append. -/
def dictSet (d : List (String × VarInfo)) (k : String) (v : VarInfo) :
    List (String × VarInfo) :=
  if (d.map Prod.fst).contains k then
    d.map (fun p => if p.1 = k then (k, v) else p)
  else
    d ++ [(k, v)]

/-- The mutable state accumulated by the first loop of `setup`: the `_vars`
dict plus the calls made to the framework's declaration primitives. -/
structure SetupState where
  vars : List (String × VarInfo)
  inputs : List InputDecl
  outputs : List OutputDecl
  constraints : List ConstraintMeta
deriving DecidableEq, Repr

/-- The body of the first loop of `setup`, for one `(name, kwargs)` entry of
`self._constraints`: record the var in `self._vars`, call `add_input`,
`add_output` and `add_constraint`. -/
def setupStep (loc : String) (st : SetupState)
    (c : String × ConstraintKwargs) : SetupState :=
  let name := c.1
  let kwargs := c.2
  let input_name := inputName loc name
  let output_name := outputName loc name
  { vars := dictSet st.vars name
      { input_name := input_name, output_name := output_name,
        shape := kwargs.shape }
    inputs := st.inputs ++
      [{ name := input_name, units := kwargs.units, shape := kwargs.shape,
         desc := kwargs.desc }]
    outputs := st.outputs ++
      [{ name := output_name, units := kwargs.units, shape := kwargs.shape,
         desc := kwargs.desc }]
    constraints := st.constraints ++
      [{ name := output_name, lower := kwargs.lower, upper := kwargs.upper,
         equals := kwargs.equals, ref := kwargs.ref, ref0 := kwargs.ref0,
         adder := kwargs.adder, scaler := kwargs.scaler, indices := none,
         linear := kwargs.linear }] }

/-- The first loop of `setup`: `for (name, kwargs) in self._constraints`,
starting from the empty `_vars` dict and no framework calls. -/
def declLoop (loc : String) (constraints : List (String × ConstraintKwargs)) :
    SetupState :=
  constraints.foldl (setupStep loc) ⟨[], [], [], []⟩

/-- `np.arange(n)` for an integer `n`: the integers `0, ..., n-1`, empty when
`n ≤ 0`. -/
def npArange (n : Int) : List Int :=
  (List.range n.toNat).map Int.ofNat

/-- `np.ones(n)` for an integer `n`: a vector of `n` ones; numpy raises
`ValueError: negative dimensions are not allowed` when `n < 0`. -/
def npOnes (n : Int) : Except String (List Rat) :=
  if n < 0 then Except.error "negative dimensions are not allowed"
  else Except.ok (List.replicate n.toNat 1)

/-- The second loop of `setup`: `for name, options in iteritems(self._vars)`,
compute `size = int(np.prod(options['shape']))` and declare the sparse
identity partial with `rows = cols = np.arange(size)`,
`val = np.ones(size)`. -/
def partialsLoop (vars : List (String × VarInfo)) :
    Except String (List PartialsDecl) :=
  match vars with
  | [] => Except.ok []
  | v :: rest =>
    match npOnes v.2.shape.prod with
    | Except.error e => Except.error e
    | Except.ok vals =>
      match partialsLoop rest with
      | Except.error e => Except.error e
      | Except.ok ps =>
        Except.ok ({ «of» := v.2.output_name, wrt := v.2.input_name,
                     rows := npArange v.2.shape.prod,
                     cols := npArange v.2.shape.prod,
                     val := vals } :: ps)

/-- What a completed `setup` leaves behind: the `_vars` dict and the four
kinds of framework calls made. -/
structure BuildResult where
  vars : List (String × VarInfo)
  inputs : List InputDecl
  outputs : List OutputDecl
  constraints : List ConstraintMeta
  partials : List PartialsDecl
deriving DecidableEq, Repr

/-- `setup`: run the declaration loop, then the partials loop; a numpy error
in the partials loop aborts the build. -/
def setup (loc : String) (constraints : List (String × ConstraintKwargs)) :
    Except String BuildResult :=
  match partialsLoop (declLoop loc constraints).vars with
  | Except.error e => Except.error e
  | Except.ok ps =>
    Except.ok { vars := (declLoop loc constraints).vars,
                inputs := (declLoop loc constraints).inputs,
                outputs := (declLoop loc constraints).outputs,
                constraints := (declLoop loc constraints).constraints,
                partials := ps }

/-- `true` exactly when `setup` ran to completion without an exception. -/
def buildSucceeds (e : Except String BuildResult) : Bool :=
  match e with
  | Except.ok _ => true
  | Except.error _ => false

/-- The partial declarations of a completed build (empty on an aborted one). -/
def partialsOf (e : Except String BuildResult) : List PartialsDecl :=
  match e with
  | Except.ok r => r.partials
  | Except.error _ => []

/-- A numpy array: a shape together with its flat data. -/
structure NdArray where
  shape : List Nat
  data : List Rat
deriving DecidableEq, Repr

/-- `compute`: `for name, options in iteritems(self._vars):
outputs[options['output_name']] = inputs[options['input_name']]`.  The
`inputs` and `outputs` buffers are maps from variable name to array; each
iteration stores the input array under the output name. -/
def compute (vars : List (String × VarInfo)) (inputs : String → NdArray)
    (outputs : String → NdArray) : String → NdArray :=
  vars.foldl
    (fun outs p => fun s =>
      if s = p.2.output_name then inputs p.2.input_name else outs s)
    outputs

/-- The sparse-identity partial declaration `setup` makes for one entry of
`self._vars` (used to describe the partials loop in closed form). -/
def partialFor (v : String × VarInfo) : PartialsDecl :=
  { «of» := v.2.output_name, wrt := v.2.input_name,
    rows := npArange v.2.shape.prod, cols := npArange v.2.shape.prod,
    val := List.replicate v.2.shape.prod.toNat 1 }

/-! Concrete declaration data used to instantiate the theorems below, drawn
from the end-to-end scenarios of the spec (`h` equality constraint, `gam`
one-sided bound, a duplicate name, a zero-sized shape, a pair differing only
in residual options). -/

/-- `name='h'`, `shape=(1,)`, `equals=20000`, `units='m'`. -/
def wArgsH : DeclareArgs :=
  { name := "h", shape := [1], units := some "m", res_units := none,
    desc := "", lower := none, upper := none, equals := some 20000,
    scaler := none, adder := none, ref := some 1, ref0 := some 0,
    linear := false, res_ref := 1, distributed := false }

/-- `name='gam'` with `equals`, a `lower` bound and no `upper` bound. -/
def wArgsGamEq : DeclareArgs :=
  { name := "gam", shape := [1], units := none, res_units := none,
    desc := "", lower := some 1, upper := none, equals := some 2,
    scaler := none, adder := none, ref := some 1, ref0 := some 0,
    linear := false, res_ref := 1, distributed := false }

/-- `name='x'` with no bounds at all. -/
def wArgsDup : DeclareArgs :=
  { name := "x", shape := [1], units := none, res_units := none,
    desc := "", lower := none, upper := none, equals := none,
    scaler := none, adder := none, ref := some 1, ref0 := some 0,
    linear := false, res_ref := 1, distributed := false }

/-- `name='y'` with both bounds given. -/
def wArgsBoth : DeclareArgs :=
  { name := "y", shape := [1], units := none, res_units := none,
    desc := "", lower := some (-3/2), upper := some 4, equals := none,
    scaler := none, adder := none, ref := some 1, ref0 := some 0,
    linear := false, res_ref := 1, distributed := false }

/-- `name='z'` with the shape `(0,)`, a non-positive dimension. -/
def wArgsZero : DeclareArgs :=
  { name := "z", shape := [0], units := none, res_units := none,
    desc := "", lower := none, upper := some 3, equals := none,
    scaler := none, adder := none, ref := some 1, ref0 := some 0,
    linear := false, res_ref := 1, distributed := false }

/-- One of a pair of declarations that differ only in `res_units`, `res_ref`
and `distributed`. -/
def wArgsA : DeclareArgs :=
  { name := "v", shape := [2], units := some "m", res_units := none,
    desc := "d", lower := some 0, upper := none, equals := none,
    scaler := some 2, adder := none, ref := some 1, ref0 := some 0,
    linear := true, res_ref := 1, distributed := false }

/-- The other half of the pair: same as `wArgsA` except `res_units`,
`res_ref` and `distributed`. -/
def wArgsB : DeclareArgs :=
  { name := "v", shape := [2], units := some "m", res_units := some "kg",
    desc := "d", lower := some 0, upper := none, equals := none,
    scaler := some 2, adder := none, ref := some 1, ref0 := some 0,
    linear := true, res_ref := 7, distributed := true }

/-- The `_vars` entry the build produces for `wArgsH` at location `final`. -/
def wInfoH : VarInfo :=
  { input_name := "final_value_in:h", output_name := "final_value:h",
    shape := [1] }

/-- The constraint metadata the build forwards for `wArgsH` at `final`. -/
def wMetaH : ConstraintMeta :=
  { name := "final_value:h", lower := none, upper := none,
    equals := some 20000, ref := some 1, ref0 := some 0, adder := none,
    scaler := none, indices := none, linear := false }

/-- A concrete input buffer for evaluating `compute`. -/
def wIns : String → NdArray :=
  fun s => if s = "final_value_in:h" then { shape := [1], data := [19500] }
           else { shape := [], data := [] }

/-- A concrete (stale) output buffer for evaluating `compute`. -/
def wOuts : String → NdArray :=
  fun s => if s = "final_value:h" then { shape := [1], data := [0] }
           else { shape := [], data := [] }

/-! Basic lemmas about the embedding. -/

theorem string_append_cancel_left {a b c : String} (h : a ++ b = a ++ c) :
    b = c := by
  have h2 : (a ++ b).data = (a ++ c).data := congrArg String.data h
  rw [String.data_append, String.data_append] at h2
  exact String.ext (List.append_cancel_left h2)

theorem inputName_inj {loc a b : String} (h : inputName loc a = inputName loc b) :
    a = b := by
  unfold inputName at h
  exact string_append_cancel_left h

theorem outputName_inj {loc a b : String}
    (h : outputName loc a = outputName loc b) : a = b := by
  unfold outputName at h
  exact string_append_cancel_left h

theorem mem_dictSet {d : List (String × VarInfo)} {k : String} {v : VarInfo}
    {p : String × VarInfo} (h : p ∈ dictSet d k v) : p ∈ d ∨ p = (k, v) := by
  unfold dictSet at h
  split at h
  · obtain ⟨q, hq, hfq⟩ := List.mem_map.mp h
    by_cases hk : q.1 = k
    · rw [if_pos hk] at hfq
      exact Or.inr hfq.symm
    · rw [if_neg hk] at hfq
      exact Or.inl (hfq ▸ hq)
  · rcases List.mem_append.mp h with h1 | h1
    · exact Or.inl h1
    · exact Or.inr (by simpa using h1)

theorem keys_dictSet (d : List (String × VarInfo)) (k : String) (v : VarInfo) :
    (dictSet d k v).map Prod.fst =
      if (d.map Prod.fst).contains k then d.map Prod.fst
      else d.map Prod.fst ++ [k] := by
  by_cases hc : (d.map Prod.fst).contains k
  · rw [if_pos hc]
    unfold dictSet
    rw [if_pos hc, List.map_map]
    apply List.map_congr_left
    intro p _
    by_cases hk : p.1 = k
    · simp [hk]
    · simp [hk]
  · rw [if_neg hc]
    unfold dictSet
    rw [if_neg hc]
    simp

theorem nodup_keys_dictSet {d : List (String × VarInfo)} {k : String}
    {v : VarInfo} (h : (d.map Prod.fst).Nodup) :
    ((dictSet d k v).map Prod.fst).Nodup := by
  rw [keys_dictSet]
  split
  · exact h
  · next hc =>
    rw [List.nodup_append]
    refine ⟨h, List.nodup_singleton k, ?_⟩
    intro x hx hxk
    have hxk2 : x = k := by simpa using hxk
    subst hxk2
    have : (d.map Prod.fst).contains x = true := by simpa using hx
    exact hc this

/-! The declaration loop of `setup`, in closed form. -/

theorem foldl_setupStep_inputs (loc : String) :
    ∀ (cs : List (String × ConstraintKwargs)) (init : SetupState),
      (cs.foldl (setupStep loc) init).inputs =
        init.inputs ++ cs.map (fun c =>
          ({ name := inputName loc c.1, units := c.2.units,
             shape := c.2.shape, desc := c.2.desc } : InputDecl)) := by
  intro cs
  induction cs with
  | nil => intro init; simp
  | cons c cs ih =>
    intro init
    rw [List.foldl_cons, ih, List.map_cons]
    simp [setupStep]

theorem foldl_setupStep_outputs (loc : String) :
    ∀ (cs : List (String × ConstraintKwargs)) (init : SetupState),
      (cs.foldl (setupStep loc) init).outputs =
        init.outputs ++ cs.map (fun c =>
          ({ name := outputName loc c.1, units := c.2.units,
             shape := c.2.shape, desc := c.2.desc } : OutputDecl)) := by
  intro cs
  induction cs with
  | nil => intro init; simp
  | cons c cs ih =>
    intro init
    rw [List.foldl_cons, ih, List.map_cons]
    simp [setupStep]

theorem foldl_setupStep_constraints (loc : String) :
    ∀ (cs : List (String × ConstraintKwargs)) (init : SetupState),
      (cs.foldl (setupStep loc) init).constraints =
        init.constraints ++ cs.map (fun c =>
          ({ name := outputName loc c.1, lower := c.2.lower,
             upper := c.2.upper, equals := c.2.equals, ref := c.2.ref,
             ref0 := c.2.ref0, adder := c.2.adder, scaler := c.2.scaler,
             indices := none, linear := c.2.linear } : ConstraintMeta)) := by
  intro cs
  induction cs with
  | nil => intro init; simp
  | cons c cs ih =>
    intro init
    rw [List.foldl_cons, ih, List.map_cons]
    simp [setupStep]

theorem declLoop_inputs (loc : String) (cs : List (String × ConstraintKwargs)) :
    (declLoop loc cs).inputs = cs.map (fun c =>
      ({ name := inputName loc c.1, units := c.2.units,
         shape := c.2.shape, desc := c.2.desc } : InputDecl)) := by
  unfold declLoop
  rw [foldl_setupStep_inputs]
  rfl

theorem declLoop_outputs (loc : String) (cs : List (String × ConstraintKwargs)) :
    (declLoop loc cs).outputs = cs.map (fun c =>
      ({ name := outputName loc c.1, units := c.2.units,
         shape := c.2.shape, desc := c.2.desc } : OutputDecl)) := by
  unfold declLoop
  rw [foldl_setupStep_outputs]
  rfl

theorem declLoop_constraints (loc : String)
    (cs : List (String × ConstraintKwargs)) :
    (declLoop loc cs).constraints = cs.map (fun c =>
      ({ name := outputName loc c.1, lower := c.2.lower, upper := c.2.upper,
         equals := c.2.equals, ref := c.2.ref, ref0 := c.2.ref0,
         adder := c.2.adder, scaler := c.2.scaler, indices := none,
         linear := c.2.linear } : ConstraintMeta)) := by
  unfold declLoop
  rw [foldl_setupStep_constraints]
  rfl

theorem foldl_setupStep_vars_mem (loc : String) :
    ∀ (cs : List (String × ConstraintKwargs)) (init : SetupState)
      (p : String × VarInfo), p ∈ (cs.foldl (setupStep loc) init).vars →
      p ∈ init.vars ∨ ∃ kw, (p.1, kw) ∈ cs ∧
        p.2 = { input_name := inputName loc p.1,
                output_name := outputName loc p.1, shape := kw.shape } := by
  intro cs
  induction cs with
  | nil =>
    intro init p h
    exact Or.inl (by simpa using h)
  | cons c cs ih =>
    intro init p h
    rw [List.foldl_cons] at h
    rcases ih (setupStep loc init c) p h with h1 | ⟨kw, hkw, hp⟩
    · rcases mem_dictSet h1 with h2 | h2
      · exact Or.inl h2
      · subst h2
        exact Or.inr ⟨c.2, by simp, rfl⟩
    · exact Or.inr ⟨kw, List.mem_cons_of_mem c hkw, hp⟩

theorem foldl_setupStep_vars_nodup (loc : String) :
    ∀ (cs : List (String × ConstraintKwargs)) (init : SetupState),
      (init.vars.map Prod.fst).Nodup →
      (((cs.foldl (setupStep loc) init).vars).map Prod.fst).Nodup := by
  intro cs
  induction cs with
  | nil => intro init h; simpa using h
  | cons c cs ih =>
    intro init h
    rw [List.foldl_cons]
    exact ih (setupStep loc init c) (nodup_keys_dictSet h)

theorem declLoop_vars_mem {loc : String} {cs : List (String × ConstraintKwargs)}
    {p : String × VarInfo} (h : p ∈ (declLoop loc cs).vars) :
    ∃ kw, (p.1, kw) ∈ cs ∧
      p.2 = { input_name := inputName loc p.1,
              output_name := outputName loc p.1, shape := kw.shape } := by
  rcases foldl_setupStep_vars_mem loc cs ⟨[], [], [], []⟩ p h with h1 | h1
  · simp at h1
  · exact h1

theorem declLoop_vars_keys_nodup (loc : String)
    (cs : List (String × ConstraintKwargs)) :
    (((declLoop loc cs).vars).map Prod.fst).Nodup :=
  foldl_setupStep_vars_nodup loc cs ⟨[], [], [], []⟩ (by simp)

theorem declLoop_outputNames_nodup (loc : String)
    (cs : List (String × ConstraintKwargs)) :
    (((declLoop loc cs).vars).map (fun p => p.2.output_name)).Nodup := by
  have h1 : ((declLoop loc cs).vars).map (fun p => p.2.output_name)
      = ((declLoop loc cs).vars).map (fun p => outputName loc p.1) := by
    apply List.map_congr_left
    intro p hp
    obtain ⟨kw, _, hp2⟩ := declLoop_vars_mem hp
    rw [hp2]
  have h2 : ((declLoop loc cs).vars).map (fun p => outputName loc p.1)
      = (((declLoop loc cs).vars).map Prod.fst).map (outputName loc) := by
    rw [List.map_map]
    rfl
  rw [h1, h2]
  exact List.Nodup.map (fun a b hab => outputName_inj hab)
    (declLoop_vars_keys_nodup loc cs)

/-! The partials loop of `setup`, in closed form. -/

theorem npOnes_ok {n : Int} {l : List Rat} (h : npOnes n = Except.ok l) :
    0 ≤ n ∧ l = List.replicate n.toNat 1 := by
  unfold npOnes at h
  split at h
  · cases h
  · next hn =>
    cases h
    exact ⟨by omega, rfl⟩

theorem npOnes_of_nonneg {n : Int} (h : 0 ≤ n) :
    npOnes n = Except.ok (List.replicate n.toNat 1) := by
  unfold npOnes
  rw [if_neg (by omega)]

theorem partialsLoop_ok {vs : List (String × VarInfo)}
    {ps : List PartialsDecl} (h : partialsLoop vs = Except.ok ps) :
    ps = vs.map partialFor ∧ ∀ v ∈ vs, 0 ≤ v.2.shape.prod := by
  induction vs generalizing ps with
  | nil =>
    unfold partialsLoop at h
    cases h
    exact ⟨rfl, by simp⟩
  | cons v rest ih =>
    unfold partialsLoop at h
    cases hv : npOnes v.2.shape.prod with
    | error e => rw [hv] at h; cases h
    | ok vals =>
      rw [hv] at h
      cases hr : partialsLoop rest with
      | error e => rw [hr] at h; cases h
      | ok ps2 =>
        rw [hr] at h
        cases h
        obtain ⟨hn, hvals⟩ := npOnes_ok hv
        obtain ⟨hps, hall⟩ := ih hr
        subst hvals hps
        refine ⟨by simp [partialFor], ?_⟩
        intro w hw
        rcases List.mem_cons.mp hw with h1 | h1
        · subst h1; exact hn
        · exact hall w h1

theorem partialsLoop_of_nonneg {vs : List (String × VarInfo)}
    (h : ∀ v ∈ vs, 0 ≤ v.2.shape.prod) :
    partialsLoop vs = Except.ok (vs.map partialFor) := by
  induction vs with
  | nil => rfl
  | cons v rest ih =>
    unfold partialsLoop
    rw [npOnes_of_nonneg (h v (by simp)),
      ih (fun w hw => h w (List.mem_cons_of_mem v hw))]
    rfl

theorem setup_eq_ok {loc : String} {cs : List (String × ConstraintKwargs)}
    {r : BuildResult} (h : setup loc cs = Except.ok r) :
    r.vars = (declLoop loc cs).vars ∧ r.inputs = (declLoop loc cs).inputs ∧
    r.outputs = (declLoop loc cs).outputs ∧
    r.constraints = (declLoop loc cs).constraints ∧
    partialsLoop (declLoop loc cs).vars = Except.ok r.partials := by
  unfold setup at h
  cases hp : partialsLoop (declLoop loc cs).vars with
  | error e => rw [hp] at h; cases h
  | ok ps =>
    rw [hp] at h
    cases h
    exact ⟨rfl, rfl, rfl, rfl, rfl⟩

theorem partialsOf_setup {loc : String} {cs : List (String × ConstraintKwargs)}
    (h : buildSucceeds (setup loc cs) = true) :
    partialsOf (setup loc cs) = ((declLoop loc cs).vars).map partialFor ∧
    ∀ v ∈ (declLoop loc cs).vars, 0 ≤ v.2.shape.prod := by
  unfold buildSucceeds at h
  cases hs : setup loc cs with
  | error e => rw [hs] at h; simp at h
  | ok r =>
    obtain ⟨_, _, _, _, hp⟩ := setup_eq_ok hs
    obtain ⟨hps, hall⟩ := partialsLoop_ok hp
    refine ⟨?_, hall⟩
    unfold partialsOf
    exact hps


/-! The evaluation stage, in closed form. -/

theorem compute_cons (v : String × VarInfo) (rest : List (String × VarInfo))
    (ins outs : String → NdArray) :
    compute (v :: rest) ins outs =
      compute rest ins (fun s =>
        if s = v.2.output_name then ins v.2.input_name else outs s) := rfl

theorem compute_of_not_mem (vars : List (String × VarInfo))
    (ins outs : String → NdArray) (key : String)
    (h : ∀ p ∈ vars, key ≠ p.2.output_name) :
    compute vars ins outs key = outs key := by
  induction vars generalizing outs with
  | nil => rfl
  | cons v rest ih =>
    rw [compute_cons,
      ih (fun s => if s = v.2.output_name then ins v.2.input_name else outs s)
        (fun p hp => h p (List.mem_cons_of_mem v hp))]
    exact if_neg (h v (by simp))

theorem compute_of_mem (vars : List (String × VarInfo))
    (ins outs : String → NdArray) (n : String) (info : VarInfo)
    (hnodup : (vars.map (fun p => p.2.output_name)).Nodup)
    (hmem : (n, info) ∈ vars) :
    compute vars ins outs info.output_name = ins info.input_name := by
  induction vars generalizing outs with
  | nil => cases hmem
  | cons v rest ih =>
    rw [List.map_cons, List.nodup_cons] at hnodup
    rw [compute_cons]
    rcases List.mem_cons.mp hmem with h1 | h1
    · have hv : v = (n, info) := h1.symm
      subst hv
      have hni : ∀ p ∈ rest, info.output_name ≠ p.2.output_name := by
        intro p hp heq
        exact hnodup.1 (heq ▸ List.mem_map_of_mem (fun q => q.2.output_name) hp)
      rw [compute_of_not_mem rest ins _ info.output_name hni]
      simp
    · exact ih _ hnodup.2 h1

theorem countP_fmt_name (fmt : String → String)
    (hinj : ∀ a b, fmt a = fmt b → a = b)
    (regs : List (String × ConstraintKwargs)) (n : String)
    (hnodup : (regs.map Prod.fst).Nodup) (hmem : n ∈ regs.map Prod.fst) :
    regs.countP (fun c => fmt c.1 == fmt n) = 1 := by
  have h1 : regs.countP (fun c => fmt c.1 == fmt n)
      = regs.countP (fun c => c.1 == n) := by
    apply List.countP_congr
    intro c _
    constructor
    · intro h
      exact beq_iff_eq.mpr (hinj _ _ (beq_iff_eq.mp h))
    · intro h
      exact beq_iff_eq.mpr (congrArg fmt (beq_iff_eq.mp h))
  have h2 : regs.countP (fun c => c.1 == n)
      = (regs.map Prod.fst).countP (fun x => x == n) := by
    rw [List.countP_map]
    rfl
  have h3 : (regs.map Prod.fst).countP (fun x => x == n)
      = (regs.map Prod.fst).count n := rfl
  rw [h1, h2, h3]
  exact List.count_eq_one_of_mem hnodup hmem

/-! The claims. -/

/-- C1: for a declaration with exactly one of (lower, upper) provided, bound
normalization fills the missing side with the large-magnitude finite sentinel
(negative for a missing lower, positive for a missing upper) and leaves the
supplied side unchanged; `_add_constraint` stores exactly the normalized
pair. -/
theorem bound_normalization_one_sided_sentinel :
    (∀ u : Rat, normalizeBounds none (some u) = (some (-INF_BOUND), some u)) ∧
    (∀ l : Rat, normalizeBounds (some l) none = (some l, some INF_BOUND)) ∧
    -INF_BOUND < 0 ∧ (0 : Rat) < INF_BOUND ∧
    (∀ a : DeclareArgs,
      ((declaredKwargs a).lower, (declaredKwargs a).upper)
        = normalizeBounds a.lower a.upper) := by
  refine ⟨fun u => rfl, fun l => rfl, ?_, ?_, fun a => rfl⟩
  · norm_num [INF_BOUND]
  · norm_num [INF_BOUND]

/-- C2: bound normalization is the identity when neither or both bounds are
given, and `_add_constraint` stores the pair unchanged in those cases. -/
theorem bound_normalization_identity_cases :
    normalizeBounds none none = (none, none) ∧
    (∀ l u : Rat, normalizeBounds (some l) (some u) = (some l, some u)) ∧
    (∀ a : DeclareArgs, a.lower = none → a.upper = none →
      (declaredKwargs a).lower = none ∧ (declaredKwargs a).upper = none) ∧
    (∀ (a : DeclareArgs) (l u : Rat), a.lower = some l → a.upper = some u →
      (declaredKwargs a).lower = a.lower ∧
      (declaredKwargs a).upper = a.upper) := by
  refine ⟨rfl, fun l u => rfl, ?_, ?_⟩
  · intro a h1 h2
    constructor <;> simp [declaredKwargs, normalizeBounds, h1, h2]
  · intro a l u h1 h2
    constructor <;> simp [declaredKwargs, normalizeBounds, h1, h2]

/-- C2 witness: a declaration with no bounds keeps both unset; one with both
bounds keeps both unchanged. -/
theorem bound_normalization_identity_cases_witness :
    ((declaredKwargs wArgsDup).lower = none ∧
     (declaredKwargs wArgsDup).upper = none) ∧
    ((declaredKwargs wArgsBoth).lower = wArgsBoth.lower ∧
     (declaredKwargs wArgsBoth).upper = wArgsBoth.upper) :=
  ⟨bound_normalization_identity_cases.2.2.1 wArgsDup rfl rfl,
   bound_normalization_identity_cases.2.2.2 wArgsBoth (-3/2) 4 rfl rfl⟩

/-- C3 counterexample: declaring `x` twice in one registry does NOT fail at
declaration time — `_add_constraint` has no duplicate check and simply
appends, so after the second call the registry holds two entries named `x`
and the claimed configuration error never happened. -/
theorem duplicate_declaration_not_rejected :
    (_add_constraint [] wArgsDup).map Prod.fst = ["x"] ∧
    (_add_constraint (_add_constraint [] wArgsDup) wArgsDup).map Prod.fst
      = ["x", "x"] := by
  exact ⟨rfl, rfl⟩

/-- C3 (amended): declaring a name that is already registered raises no
error at declaration time; `_add_constraint` unconditionally appends the
duplicate entry, and any duplicate detection is left to the build stage's
external variable-creation primitives. -/
theorem duplicate_declaration_appends
    (regs : List (String × ConstraintKwargs)) (a : DeclareArgs)
    (h : a.name ∈ regs.map Prod.fst) :
    _add_constraint regs a = regs ++ [(a.name, declaredKwargs a)] := rfl

/-- C3 witness: redeclaring the already-registered name `x` appends. -/
theorem duplicate_declaration_appends_witness :
    wArgsDup.name ∈ (_add_constraint [] wArgsDup).map Prod.fst ∧
    _add_constraint (_add_constraint [] wArgsDup) wArgsDup
      = (_add_constraint [] wArgsDup)
        ++ [(wArgsDup.name, declaredKwargs wArgsDup)] :=
  ⟨by decide, duplicate_declaration_appends (_add_constraint [] wArgsDup)
    wArgsDup (by decide)⟩

/-- C4: for every constraint declared under a distinct name `n`, the build
stage creates exactly one input named `{loc}_value_in:{n}` and exactly one
output named `{loc}_value:{n}`, both of the declared shape (and units and
description); the names depend only on the location and the name. -/
theorem setup_creates_named_io (loc n : String)
    (regs : List (String × ConstraintKwargs)) (kw : ConstraintKwargs)
    (hloc : loc = "initial" ∨ loc = "final")
    (hnodup : (regs.map Prod.fst).Nodup)
    (hmem : (n, kw) ∈ regs) :
    (declLoop loc regs).inputs.countP
      (fun i => i.name == inputName loc n) = 1 ∧
    ({ name := inputName loc n, units := kw.units, shape := kw.shape,
       desc := kw.desc } : InputDecl) ∈ (declLoop loc regs).inputs ∧
    (declLoop loc regs).outputs.countP
      (fun o => o.name == outputName loc n) = 1 ∧
    ({ name := outputName loc n, units := kw.units, shape := kw.shape,
       desc := kw.desc } : OutputDecl) ∈ (declLoop loc regs).outputs := by
  have hn : n ∈ regs.map Prod.fst :=
    List.mem_map.mpr ⟨(n, kw), hmem, rfl⟩
  refine ⟨?_, ?_, ?_, ?_⟩
  · rw [declLoop_inputs, List.countP_map]
    exact countP_fmt_name (inputName loc) (fun a b hab => inputName_inj hab)
      regs n hnodup hn
  · rw [declLoop_inputs]
    exact List.mem_map.mpr ⟨(n, kw), hmem, rfl⟩
  · rw [declLoop_outputs, List.countP_map]
    exact countP_fmt_name (outputName loc) (fun a b hab => outputName_inj hab)
      regs n hnodup hn
  · rw [declLoop_outputs]
    exact List.mem_map.mpr ⟨(n, kw), hmem, rfl⟩

/-- C4 witness: the `h` equality-constraint scenario at location `final`. -/
theorem setup_creates_named_io_witness :
    (declLoop "final" (_add_constraint [] wArgsH)).inputs.countP
      (fun i => i.name == inputName "final" "h") = 1 ∧
    ({ name := inputName "final" "h", units := (declaredKwargs wArgsH).units,
       shape := (declaredKwargs wArgsH).shape,
       desc := (declaredKwargs wArgsH).desc } : InputDecl)
      ∈ (declLoop "final" (_add_constraint [] wArgsH)).inputs ∧
    (declLoop "final" (_add_constraint [] wArgsH)).outputs.countP
      (fun o => o.name == outputName "final" "h") = 1 ∧
    ({ name := outputName "final" "h", units := (declaredKwargs wArgsH).units,
       shape := (declaredKwargs wArgsH).shape,
       desc := (declaredKwargs wArgsH).desc } : OutputDecl)
      ∈ (declLoop "final" (_add_constraint [] wArgsH)).outputs :=
  setup_creates_named_io "final" "h" (_add_constraint [] wArgsH)
    (declaredKwargs wArgsH) (Or.inr rfl) (by decide) (by decide)

/-- C5: every built pass-through variable gets exactly one sparse derivative
declaration, whose row and column indices are `0..size-1` (so the nonzeros
sit at positions `(i, i)`) and whose values are `size` ones, with
`size = prod(shape)` — a sparse identity block in triplet form. -/
theorem sparse_identity_partials (loc n : String)
    (regs : List (String × ConstraintKwargs)) (info : VarInfo)
    (hok : buildSucceeds (setup loc regs) = true)
    (hmem : (n, info) ∈ (declLoop loc regs).vars) :
    ({ «of» := info.output_name, wrt := info.input_name,
       rows := npArange info.shape.prod, cols := npArange info.shape.prod,
       val := List.replicate info.shape.prod.toNat 1 } : PartialsDecl)
      ∈ partialsOf (setup loc regs) ∧
    (partialsOf (setup loc regs)).length = (declLoop loc regs).vars.length ∧
    0 ≤ info.shape.prod ∧
    (npArange info.shape.prod).length = info.shape.prod.toNat ∧
    (List.replicate info.shape.prod.toNat (1 : Rat)).length
      = info.shape.prod.toNat := by
  obtain ⟨hps, hall⟩ := partialsOf_setup hok
  refine ⟨?_, ?_, hall (n, info) hmem, ?_, ?_⟩
  · rw [hps]
    exact List.mem_map_of_mem partialFor hmem
  · rw [hps, List.length_map]
  · unfold npArange
    rw [List.length_map, List.length_range]
  · rw [List.length_replicate]

/-- C5 witness: the single-entry identity block of the `h` scenario. -/
theorem sparse_identity_partials_witness :
    ({ «of» := wInfoH.output_name, wrt := wInfoH.input_name,
       rows := npArange wInfoH.shape.prod,
       cols := npArange wInfoH.shape.prod,
       val := List.replicate wInfoH.shape.prod.toNat 1 } : PartialsDecl)
      ∈ partialsOf (setup "final" (_add_constraint [] wArgsH)) ∧
    (partialsOf (setup "final" (_add_constraint [] wArgsH))).length
      = (declLoop "final" (_add_constraint [] wArgsH)).vars.length ∧
    0 ≤ wInfoH.shape.prod ∧
    (npArange wInfoH.shape.prod).length = wInfoH.shape.prod.toNat ∧
    (List.replicate wInfoH.shape.prod.toNat (1 : Rat)).length
      = wInfoH.shape.prod.toNat :=
  sparse_identity_partials "final" "h" (_add_constraint [] wArgsH) wInfoH
    (by decide) (by decide)

/-- C6: one `compute` call copies, for every registered pass-through
variable, the input array to the paired output verbatim — identical shape
and identical values — whatever the input buffer holds. -/
theorem compute_pass_through (loc n : String)
    (regs : List (String × ConstraintKwargs)) (info : VarInfo)
    (ins outs : String → NdArray)
    (hmem : (n, info) ∈ (declLoop loc regs).vars) :
    compute (declLoop loc regs).vars ins outs info.output_name
      = ins info.input_name ∧
    (compute (declLoop loc regs).vars ins outs info.output_name).shape
      = (ins info.input_name).shape ∧
    (compute (declLoop loc regs).vars ins outs info.output_name).data
      = (ins info.input_name).data := by
  have h := compute_of_mem (declLoop loc regs).vars ins outs n info
    (declLoop_outputNames_nodup loc regs) hmem
  exact ⟨h, by rw [h], by rw [h]⟩

/-- C6 witness: assigning `[19500.0]` to `final_value_in:h` and evaluating
yields `[19500.0]` at `final_value:h`. -/
theorem compute_pass_through_witness :
    compute (declLoop "final" (_add_constraint [] wArgsH)).vars wIns wOuts
      wInfoH.output_name = wIns wInfoH.input_name ∧
    (compute (declLoop "final" (_add_constraint [] wArgsH)).vars wIns wOuts
      wInfoH.output_name).shape = (wIns wInfoH.input_name).shape ∧
    (compute (declLoop "final" (_add_constraint [] wArgsH)).vars wIns wOuts
      wInfoH.output_name).data = (wIns wInfoH.input_name).data :=
  compute_pass_through "final" "h" (_add_constraint [] wArgsH) wInfoH
    wIns wOuts (by decide)

/-- C7 counterexample: the shape `(0,)` has a non-positive dimension, yet
the build stage completes without any error. -/
theorem zero_dim_shape_builds :
    wArgsZero.shape.any (fun d => decide (d ≤ 0)) = true ∧
    buildSucceeds (setup "initial" (_add_constraint [] wArgsZero)) = true := by
  exact ⟨rfl, rfl⟩

/-- C7 (amended): the build stage performs no shape validation of its own;
every registry whose declared shapes all have a nonnegative product of
dimensions builds successfully (in particular any shape with a zero
dimension).  Only a negative product can abort the build, and then only
because numpy's `ones` rejects a negative size. -/
theorem setup_no_shape_validation (loc : String)
    (regs : List (String × ConstraintKwargs))
    (h : ∀ c ∈ regs, 0 ≤ c.2.shape.prod) :
    buildSucceeds (setup loc regs) = true := by
  have hvars : ∀ v ∈ (declLoop loc regs).vars, 0 ≤ v.2.shape.prod := by
    intro v hv
    obtain ⟨kw, hkw, hv2⟩ := declLoop_vars_mem hv
    rw [hv2]
    exact h (v.1, kw) hkw
  unfold setup buildSucceeds
  rw [partialsLoop_of_nonneg hvars]

/-- C7 witness: the zero-dimension registry satisfies the nonnegative-product
condition and builds. -/
theorem setup_no_shape_validation_witness :
    (∀ c ∈ _add_constraint [] wArgsZero, 0 ≤ c.2.shape.prod) ∧
    buildSucceeds (setup "final" (_add_constraint [] wArgsZero)) = true :=
  ⟨by decide, setup_no_shape_validation "final" (_add_constraint [] wArgsZero)
    (by decide)⟩

/-- C8 counterexample: declaring `gam` with `equals=2`, `lower=1` and
`upper=None` raises no error, but the forwarded metadata triple is
`(1, INF_BOUND, 2)`, not the caller's `(1, None, 2)`: the missing upper
bound was replaced by the sentinel even though `equals` is set. -/
theorem equals_with_bound_gets_sentinel :
    wArgsGamEq.equals = some 2 ∧ wArgsGamEq.lower = some 1 ∧
    wArgsGamEq.upper = none ∧
    (declLoop "final" (_add_constraint [] wArgsGamEq)).constraints.map
      (fun m => (m.lower, m.upper, m.equals))
      = [(some 1, some INF_BOUND, some 2)] ∧
    some INF_BOUND ≠ (none : Option Rat) := by
  refine ⟨rfl, rfl, rfl, rfl, by simp⟩

/-- C8 (amended): a declaration that sets `equals` together with `lower`
and/or `upper` raises no error, and the metadata forwarded for it at build
time carries `equals` and any supplied bound unchanged, with the pair
(lower, upper) passed through the usual bound normalization — so the triple
is exactly the caller's except that a missing side of a one-sided bound is
filled with the sentinel. -/
theorem constraint_meta_forwarding (loc : String)
    (regs : List (String × ConstraintKwargs)) (a : DeclareArgs) :
    (declLoop loc (_add_constraint regs a)).constraints.getLast? =
      some { name := outputName loc a.name,
             lower := (normalizeBounds a.lower a.upper).1,
             upper := (normalizeBounds a.lower a.upper).2,
             equals := a.equals, ref := a.ref, ref0 := a.ref0,
             adder := a.adder, scaler := a.scaler, indices := none,
             linear := a.linear } := by
  unfold _add_constraint
  rw [declLoop_constraints, List.map_append, List.map_cons, List.map_nil,
    List.getLast?_concat]
  rfl

/-- C9: the metadata forwarded to the constraint-registration primitive has
`indices = None` for every declared constraint: the stored kwargs dict has
no `indices` key, so `kwargs.get('indices', None)` always yields `None`. -/
theorem indices_always_none (loc : String)
    (regs : List (String × ConstraintKwargs)) (m : ConstraintMeta)
    (hm : m ∈ (declLoop loc regs).constraints) : m.indices = none := by
  rw [declLoop_constraints] at hm
  obtain ⟨c, _, hcm⟩ := List.mem_map.mp hm
  rw [← hcm]

/-- C9 witness: the metadata forwarded for the `h` scenario has no indices. -/
theorem indices_always_none_witness :
    wMetaH ∈ (declLoop "final" (_add_constraint [] wArgsH)).constraints ∧
    wMetaH.indices = none :=
  ⟨by decide, indices_always_none "final" (_add_constraint [] wArgsH) wMetaH
    (by decide)⟩

/-- C10: two declarations that agree on everything except `res_units`,
`res_ref` and `distributed` produce identical build results; those three
parameters are stored in the specification but never forwarded to the
created input, output, derivative declaration or constraint metadata. -/
theorem build_independent_of_residual_options (loc : String)
    (regs : List (String × ConstraintKwargs)) (a b : DeclareArgs)
    (hname : a.name = b.name) (hshape : a.shape = b.shape)
    (hunits : a.units = b.units) (hdesc : a.desc = b.desc)
    (hlower : a.lower = b.lower) (hupper : a.upper = b.upper)
    (hequals : a.equals = b.equals) (hscaler : a.scaler = b.scaler)
    (hadder : a.adder = b.adder) (href : a.ref = b.ref)
    (href0 : a.ref0 = b.ref0) (hlinear : a.linear = b.linear) :
    setup loc (_add_constraint regs a) = setup loc (_add_constraint regs b) ∧
    (declaredKwargs a).res_units = a.res_units ∧
    (declaredKwargs a).res_ref = a.res_ref ∧
    (declaredKwargs a).distributed = a.distributed := by
  have hstep : setupStep loc (declLoop loc regs) (a.name, declaredKwargs a)
      = setupStep loc (declLoop loc regs) (b.name, declaredKwargs b) := by
    simp only [setupStep, declaredKwargs, hname, hshape, hunits, hdesc,
      hlower, hupper, hequals, hscaler, hadder, href, href0, hlinear]
  have hdl : declLoop loc (_add_constraint regs a)
      = declLoop loc (_add_constraint regs b) := by
    unfold declLoop _add_constraint
    rw [List.foldl_append, List.foldl_append]
    simp only [List.foldl_cons, List.foldl_nil]
    exact hstep
  refine ⟨?_, rfl, rfl, rfl⟩
  unfold setup
  rw [hdl]

/-- C10 witness: a concrete pair differing only in `res_units`, `res_ref`
and `distributed` yields the same build result. -/
theorem build_independent_of_residual_options_witness :
    wArgsA ≠ wArgsB ∧
    (setup "initial" (_add_constraint [] wArgsA)
       = setup "initial" (_add_constraint [] wArgsB) ∧
     (declaredKwargs wArgsA).res_units = wArgsA.res_units ∧
     (declaredKwargs wArgsA).res_ref = wArgsA.res_ref ∧
     (declaredKwargs wArgsA).distributed = wArgsA.distributed) :=
  ⟨by decide, build_independent_of_residual_options "initial" [] wArgsA
    wArgsB rfl rfl rfl rfl rfl rfl rfl rfl rfl rfl rfl rfl⟩

end BoundaryConstraintComp
